import Mathlib

/-!
Shallow embedding of `dora-core/src/server/typemap.rs` (the `TypeMap`
container of the dora-image repository) and proofs about it.

Modelling choices:
* A Rust `TypeId` is modelled as a `Nat` (`TypeId`): a unique per-type
  identifier usable as a map key.
* A `Box<dyn Any + Send + Sync>` is modelled as `AnyBox`: a record pairing
  the type identifier of the value's concrete type (`tid`, the tag that
  `downcast` checks) with the type-erased payload (`val : Nat`).
* The backing `HashMap<TypeId, Box<dyn Any>, BuildHasherDefault<TypeIdHash>>`
  is modelled as an association list (`AnyTypeMap`) with `HashMap`'s
  key-equality semantics for `get` / `insert` / `remove` / `clear`.
* `TypeMap`'s lazily allocated store `map: Option<Box<AnyTypeMap>>` is an
  `Option AnyTypeMap`: `none` means the backing store was never allocated.
* The generic operations `insert::<T>` / `get::<T>` / `get_mut::<T>` /
  `remove::<T>` take the type identifier `t = TypeId::of::<T>()` explicitly;
  a value of type `T` is its erased payload.
* Operations taking `&mut self` return the new `TypeMap` paired with their
  result; `get` takes `&self` and returns only its result.
-/

/-- A per-type identifier, as produced by `TypeId::of::<T>()`. -/
abbrev TypeId := Nat

/-- Model of `Box<dyn Any + Send + Sync>`: the type identifier of the boxed
value's concrete type together with the erased payload. -/
structure AnyBox where
  tid : TypeId
  val : Nat
  deriving DecidableEq

/-- Model of `Box<dyn Any>::downcast::<T>().ok().map(|x| *x)`: succeeds with
the payload exactly when the box's concrete type identifier matches `t`. -/
def downcast (b : AnyBox) (t : TypeId) : Option Nat :=
  if b.tid = t then some b.val else none

/-- Model of `(**boxed).downcast_ref::<T>()`: same success condition as
`downcast`, yielding a shared borrow of the payload. -/
def downcast_ref (b : AnyBox) (t : TypeId) : Option Nat :=
  if b.tid = t then some b.val else none

/-- Model of `(**boxed).downcast_mut::<T>()`: same success condition as
`downcast`, yielding an exclusive borrow of the payload. -/
def downcast_mut (b : AnyBox) (t : TypeId) : Option Nat :=
  if b.tid = t then some b.val else none

/-- The backing store `AnyTypeMap = HashMap<TypeId, Box<dyn Any>>`, modelled
as an association list from type identifier to type-erased box. -/
abbrev AnyTypeMap := List (TypeId × AnyBox)

/-- Model of `HashMap::get(&k)`. -/
def mapGet : AnyTypeMap → TypeId → Option AnyBox
  | [], _ => none
  | (k2, b) :: rest, k => if k2 = k then some b else mapGet rest k

/-- Model of `HashMap::insert(k, v)`: replaces any entry for `k`, returning
the new store together with the previous value for `k`, if any. -/
def mapInsert : AnyTypeMap → TypeId → AnyBox → AnyTypeMap × Option AnyBox
  | [], k, v => ([(k, v)], none)
  | (k2, b) :: rest, k, v =>
    if k2 = k then ((k, v) :: rest, some b)
    else
      let r := mapInsert rest k v
      ((k2, b) :: r.1, r.2)

/-- Model of `HashMap::remove(&k)`: returns the new store together with the
removed value for `k`, if any. -/
def mapRemove : AnyTypeMap → TypeId → AnyTypeMap × Option AnyBox
  | [], _ => ([], none)
  | (k2, b) :: rest, k =>
    if k2 = k then (rest, some b)
    else
      let r := mapRemove rest k
      ((k2, b) :: r.1, r.2)

/-- Model of `HashMap::clear()`: removes all entries, keeping the (already
allocated) store itself. -/
def mapClear (_ : AnyTypeMap) : AnyTypeMap := []

/-- The `TypeMap` container: an optional, lazily allocated backing store.
`map = none` models `map: None` (backing store never allocated). -/
structure TypeMap where
  map : Option AnyTypeMap
  deriving DecidableEq

/-- Model of `TypeMap::new()`: empty map, zero allocation. -/
def TypeMap.new : TypeMap := ⟨none⟩

/-- Model of `TypeMap::insert::<T>(val)` with `t = TypeId::of::<T>()` and
`val` erased to its payload `v`: `get_or_insert_with` allocates an empty
store if none exists, the pair `(t, v)` is boxed under key `t`, and the
previous box for `t`, if any, is downcast back to `T`. -/
def TypeMap.insert (m : TypeMap) (t : TypeId) (v : Nat) : TypeMap × Option Nat :=
  let base := m.map.getD []
  let r := mapInsert base t (AnyBox.mk t v)
  (⟨some r.1⟩, r.2.bind (fun boxed => downcast boxed t))

/-- Model of `TypeMap::get::<T>()` with `t = TypeId::of::<T>()`: look up the
box stored under `t` (absent if the store was never allocated) and
downcast it by shared reference. -/
def TypeMap.get (m : TypeMap) (t : TypeId) : Option Nat :=
  (m.map.bind (fun mp => mapGet mp t)).bind (fun boxed => downcast_ref boxed t)

/-- Model of `TypeMap::get_mut::<T>()` with `t = TypeId::of::<T>()`: as
`get`, through `as_mut` / `get_mut` / `downcast_mut`; the store itself is
left exactly as it was (in particular `as_mut` never allocates it). -/
def TypeMap.get_mut (m : TypeMap) (t : TypeId) : TypeMap × Option Nat :=
  (m, (m.map.bind (fun mp => mapGet mp t)).bind (fun boxed => downcast_mut boxed t))

/-- Model of `TypeMap::remove::<T>()` with `t = TypeId::of::<T>()`: if the
store was never allocated, nothing happens and the result is absent;
otherwise the entry under `t` is removed from the store and the removed box,
if any, is downcast back to `T`. -/
def TypeMap.remove (m : TypeMap) (t : TypeId) : TypeMap × Option Nat :=
  match m.map with
  | none => (m, none)
  | some mp =>
    let r := mapRemove mp t
    (⟨some r.1⟩, r.2.bind (fun boxed => downcast boxed t))

/-- Model of `TypeMap::clear()`: if the store was allocated, empty it in
place (it stays allocated); otherwise do nothing. -/
def TypeMap.clear (m : TypeMap) : TypeMap :=
  match m.map with
  | none => m
  | some mp => ⟨some (mapClear mp)⟩

/-- The box stored under type identifier `t`, if any (the raw `HashMap`
lookup underlying `get` / `get_mut`, before any downcast). -/
def findBox (m : TypeMap) (t : TypeId) : Option AnyBox :=
  m.map.bind (fun mp => mapGet mp t)

/-- Model of `impl fmt::Debug for TypeMap`: the builder returned by
`Formatter::debug_struct(name)`, holding the struct name and the fields
added so far. -/
structure DebugStruct where
  name : String
  fields : List (String × String)

/-- Model of `Formatter::debug_struct(name)`: a builder with no fields. -/
def debugStruct (n : String) : DebugStruct := ⟨n, []⟩

/-- Model of `DebugStruct::field(name, value)`. -/
def DebugStruct.field (d : DebugStruct) (k v : String) : DebugStruct :=
  ⟨d.name, d.fields ++ [(k, v)]⟩

/-- Model of `DebugStruct::finish()`: renders the struct name, followed by
the fields when any were added. -/
def DebugStruct.finish (d : DebugStruct) : String :=
  match d.fields with
  | [] => d.name
  | fs => d.name ++ " \x7b " ++
      String.intercalate ", " (fs.map (fun p => p.1 ++ ": " ++ p.2)) ++ " \x7d"

/-- Model of `<TypeMap as fmt::Debug>::fmt`: the source writes
`f.debug_struct("TypeMap").finish()`, adding no field. -/
def TypeMap.fmtDebug (_ : TypeMap) : String :=
  (debugStruct "TypeMap").finish

/-- Model of the `TypeIdHash` hasher state (`struct TypeIdHash(u64)`). -/
structure TypeIdHash where
  state : Nat
  deriving DecidableEq

/-- Model of `TypeIdHash::default()` (`#[derive(Default)]`, so state 0),
as built per key by `BuildHasherDefault<TypeIdHash>`. -/
def TypeIdHash.dflt : TypeIdHash := ⟨0⟩

/-- Model of `TypeIdHash::write_u64(id)`: stores `id` verbatim (a `u64`,
hence reduced modulo 2^64). -/
def TypeIdHash.write_u64 (_ : TypeIdHash) (id : Nat) : TypeIdHash :=
  ⟨id % 2 ^ 64⟩

/-- Model of `TypeIdHash::finish()`: returns the stored word unchanged. -/
def TypeIdHash.finish (h : TypeIdHash) : Nat := h.state

/-- A single call a `Hash` implementation may make on the hasher: either the
byte-slice method `write` or the word method `write_u64`. -/
inductive HashStep where
  | writeBytes (bs : List Nat)
  | writeU64 (id : Nat)

/-- Running a sequence of hasher calls on a `TypeIdHash`. The source's
`write` is `unreachable!("TypeId calls write_u64")`, an unconditional
program-halting defect branch, modelled as `none`. -/
def TypeIdHash.run : TypeIdHash → List HashStep → Option TypeIdHash
  | h, [] => some h
  | _, .writeBytes _ :: _ => none
  | h, .writeU64 id :: rest => TypeIdHash.run (h.write_u64 id) rest

/-- Modelled from the spec: the standard library's `Hash` implementation for
`TypeId` (not part of this repository's sources) feeds the key to the hasher
as a single already-well-distributed 64-bit value, i.e. it invokes only
`write_u64` with the identifier, never the byte-slice `write`. -/
def typeIdHashSteps (id : Nat) : List HashStep := [.writeU64 id]

/-- Hashing one type identifier the way the map does: a fresh default
`TypeIdHash`, the calls made by `TypeId`'s `Hash` implementation, then
`finish`. `none` would mean the defect branch in `write` was reached. -/
def hashTypeId (id : Nat) : Option Nat :=
  (TypeIdHash.run TypeIdHash.dflt (typeIdHashSteps id)).map TypeIdHash.finish

/-- States of `TypeMap` constructible through its public interface:
`new` (also `Default::default()`), and any sequence of `insert`, `remove`,
`clear` and `get_mut` (`get` takes `&self` and yields no new state). -/
inductive Reachable : TypeMap → Prop where
  | new : Reachable TypeMap.new
  | ins (t : TypeId) (v : Nat) {m : TypeMap} :
      Reachable m → Reachable (m.insert t v).1
  | rem (t : TypeId) {m : TypeMap} :
      Reachable m → Reachable (m.remove t).1
  | clr {m : TypeMap} : Reachable m → Reachable m.clear
  | gmut (t : TypeId) {m : TypeMap} :
      Reachable m → Reachable (m.get_mut t).1

/-- The keys (type identifiers) of a backing store. -/
def keys (mp : AnyTypeMap) : List TypeId := mp.map Prod.fst

/-- Invariant of an allocated backing store: no duplicate type identifiers,
and every box is stored under the type identifier of its own concrete type
(so the downcast on lookup can never fail). -/
def StoreInv (mp : AnyTypeMap) : Prop :=
  (keys mp).Nodup ∧ ∀ e ∈ mp, e.2.tid = e.1

/-- Invariant of a `TypeMap`: its backing store, when allocated, satisfies
`StoreInv`. -/
def TypeMap.Inv (m : TypeMap) : Prop :=
  ∀ mp, m.map = some mp → StoreInv mp

/-- The previous value returned by `HashMap::insert` is exactly the previous
lookup result. -/
theorem mapInsert_snd (m : AnyTypeMap) (k : TypeId) (v : AnyBox) :
    (mapInsert m k v).2 = mapGet m k := by
  induction m with
  | nil => simp [mapInsert, mapGet]
  | cons e rest ih =>
    obtain ⟨k2, b⟩ := e
    by_cases h : k2 = k <;> simp [mapInsert, mapGet, h, ih]

/-- Looking up the key just inserted finds the new value. -/
theorem mapGet_mapInsert_self (m : AnyTypeMap) (k : TypeId) (v : AnyBox) :
    mapGet (mapInsert m k v).1 k = some v := by
  induction m with
  | nil => simp [mapInsert, mapGet]
  | cons e rest ih =>
    obtain ⟨k2, b⟩ := e
    by_cases h : k2 = k <;> simp [mapInsert, mapGet, h, ih]

/-- Inserting under key `k` leaves lookups at any other key unchanged. -/
theorem mapGet_mapInsert_ne (m : AnyTypeMap) (k u : TypeId) (v : AnyBox)
    (h : k ≠ u) : mapGet (mapInsert m k v).1 u = mapGet m u := by
  induction m with
  | nil => simp [mapInsert, mapGet, h]
  | cons e rest ih =>
    obtain ⟨k2, b⟩ := e
    by_cases h2 : k2 = k
    · subst h2; simp [mapInsert, mapGet, h]
    · by_cases h3 : k2 = u <;>
        simp [mapInsert, mapGet, h2, h3, ih, Ne.symm h]

/-- The value returned by `HashMap::remove` is exactly the previous lookup
result. -/
theorem mapRemove_snd (m : AnyTypeMap) (k : TypeId) :
    (mapRemove m k).2 = mapGet m k := by
  induction m with
  | nil => simp [mapRemove, mapGet]
  | cons e rest ih =>
    obtain ⟨k2, b⟩ := e
    by_cases h : k2 = k <;> simp [mapRemove, mapGet, h, ih]

/-- Every entry of the store after an insert is either the new entry or an
entry of the old store. -/
theorem mem_mapInsert (m : AnyTypeMap) (k : TypeId) (v : AnyBox)
    (e : TypeId × AnyBox) (he : e ∈ (mapInsert m k v).1) :
    e = (k, v) ∨ e ∈ m := by
  induction m with
  | nil =>
    simp [mapInsert] at he
    exact Or.inl he
  | cons e2 rest ih =>
    obtain ⟨k2, b⟩ := e2
    by_cases h : k2 = k
    · simp [mapInsert, h] at he
      rcases he with he | he
      · exact Or.inl (by simp [he])
      · exact Or.inr (by simp [he])
    · simp [mapInsert, h] at he
      rcases he with he | he
      · exact Or.inr (by simp [he])
      · rcases ih he with h2 | h2
        · exact Or.inl h2
        · exact Or.inr (by simp [h2])

/-- The store after a remove is a sublist of the old store. -/
theorem mapRemove_sublist (m : AnyTypeMap) (k : TypeId) :
    (mapRemove m k).1.Sublist m := by
  induction m with
  | nil => simp [mapRemove]
  | cons e rest ih =>
    obtain ⟨k2, b⟩ := e
    by_cases h : k2 = k
    · simp only [mapRemove, if_pos h]
      exact List.sublist_cons_self (k2, b) rest
    · simpa [mapRemove, h] using List.Sublist.cons₂ (k2, b) ih

/-- Unfolding lemma for `keys` on a cons cell. -/
theorem keys_cons (e : TypeId × AnyBox) (m : AnyTypeMap) :
    keys (e :: m) = e.1 :: keys m := rfl

/-- A key is absent from a store exactly when its lookup fails. -/
theorem mapGet_eq_none_iff (m : AnyTypeMap) (k : TypeId) :
    mapGet m k = none ↔ k ∉ keys m := by
  induction m with
  | nil => simp [mapGet, keys]
  | cons e rest ih =>
    obtain ⟨k2, b⟩ := e
    by_cases h : k2 = k
    · subst h; simp [mapGet, keys_cons]
    · have hk : ¬k = k2 := fun h2 => h h2.symm
      simp [mapGet, keys_cons, h, hk, ih]

/-- A successful lookup yields an entry of the store. -/
theorem mapGet_mem (m : AnyTypeMap) (k : TypeId) (b : AnyBox)
    (h : mapGet m k = some b) : (k, b) ∈ m := by
  induction m with
  | nil => simp [mapGet] at h
  | cons e rest ih =>
    obtain ⟨k2, b2⟩ := e
    by_cases h2 : k2 = k
    · subst h2
      simp [mapGet] at h
      simp [h]
    · simp [mapGet, h2] at h
      simp [ih h]

/-- The keys after an insert: unchanged when the key was present, the old
keys followed by the new key otherwise. -/
theorem keys_mapInsert (m : AnyTypeMap) (k : TypeId) (v : AnyBox) :
    keys (mapInsert m k v).1 =
      if mapGet m k = none then keys m ++ [k] else keys m := by
  induction m with
  | nil => simp [mapInsert, mapGet, keys]
  | cons e rest ih =>
    obtain ⟨k2, b⟩ := e
    by_cases h : k2 = k
    · subst h; simp [mapInsert, mapGet, keys_cons]
    · by_cases h2 : mapGet rest k = none <;>
        simp [mapInsert, mapGet, keys_cons, h, h2, ih]

/-- Inserting preserves distinctness of the stored keys. -/
theorem nodup_keys_mapInsert (m : AnyTypeMap) (k : TypeId) (v : AnyBox)
    (h : (keys m).Nodup) : (keys (mapInsert m k v).1).Nodup := by
  rw [keys_mapInsert]
  by_cases h2 : mapGet m k = none
  · simp only [h2, if_pos]
    refine List.Nodup.append h (List.nodup_singleton k) ?_
    intro a ha hb
    simp at hb
    subst hb
    exact ((mapGet_eq_none_iff m a).1 h2) ha
  · simpa [h2] using h

/-- Removing preserves distinctness of the stored keys. -/
theorem nodup_keys_mapRemove (m : AnyTypeMap) (k : TypeId)
    (h : (keys m).Nodup) : (keys (mapRemove m k).1).Nodup :=
  ((mapRemove_sublist m k).map Prod.fst).nodup h

/-- On a store with distinct keys, a removed key no longer resolves. -/
theorem mapGet_mapRemove_self (m : AnyTypeMap) (k : TypeId)
    (h : (keys m).Nodup) : mapGet (mapRemove m k).1 k = none := by
  induction m with
  | nil => simp [mapRemove, mapGet]
  | cons e rest ih =>
    obtain ⟨k2, b⟩ := e
    by_cases h2 : k2 = k
    · subst h2
      simp [keys] at h
      simp [mapRemove]
      exact (mapGet_eq_none_iff rest k2).2 (by simpa [keys] using h.1)
    · simp [keys] at h
      simp [mapRemove, mapGet, h2]
      exact ih (by simpa [keys] using h.2)

/-- `get` is the raw lookup followed by the shared-reference downcast. -/
theorem get_eq_findBox_bind (m : TypeMap) (t : TypeId) :
    m.get t = (findBox m t).bind (fun b => downcast_ref b t) := rfl

/-- The previous value returned by `insert` is exactly what `get` returned
just before (the raw lookup and the downcast coincide). -/
theorem insert_snd_eq_get (m : TypeMap) (t : TypeId) (v : Nat) :
    (m.insert t v).2 = m.get t := by
  cases hm : m.map with
  | none => simp [TypeMap.insert, TypeMap.get, hm, mapInsert]
  | some mp =>
    simp [TypeMap.insert, TypeMap.get, hm, mapInsert_snd, downcast,
      downcast_ref]

/-- After inserting the payload `v` under `t`, `get` at `t` returns `v`. -/
theorem get_insert_self (m : TypeMap) (t : TypeId) (v : Nat) :
    ((m.insert t v).1).get t = some v := by
  simp [TypeMap.insert, TypeMap.get, mapGet_mapInsert_self, downcast_ref]

/-- Inserting under `t` leaves `get` at any other identifier unchanged. -/
theorem get_insert_ne (m : TypeMap) (t u : TypeId) (v : Nat) (h : t ≠ u) :
    ((m.insert t v).1).get u = m.get u := by
  cases hm : m.map with
  | none =>
    simp [TypeMap.insert, TypeMap.get, hm, mapGet_mapInsert_ne _ _ _ _ h,
      mapGet]
    exact fun hh => absurd hh h
  | some mp =>
    simp [TypeMap.insert, TypeMap.get, hm, mapGet_mapInsert_ne _ _ _ _ h]

/-- Inserting under `t` leaves the raw entry under any other identifier
unchanged. -/
theorem findBox_insert_ne (m : TypeMap) (t u : TypeId) (v : Nat)
    (h : t ≠ u) : findBox ((m.insert t v).1) u = findBox m u := by
  cases hm : m.map with
  | none =>
    simp [TypeMap.insert, findBox, hm, mapGet_mapInsert_ne _ _ _ _ h, mapGet]
    exact h
  | some mp =>
    simp [TypeMap.insert, findBox, hm, mapGet_mapInsert_ne _ _ _ _ h]

/-- The value returned by `remove` is exactly what `get` returned just
before. -/
theorem remove_snd_eq_get (m : TypeMap) (t : TypeId) :
    (m.remove t).2 = m.get t := by
  obtain ⟨mo⟩ := m
  cases mo with
  | none => rfl
  | some mp =>
    simp [TypeMap.remove, TypeMap.get, mapRemove_snd, downcast, downcast_ref]

/-- The value `get_mut` resolves is exactly what `get` resolves. -/
theorem get_mut_snd_eq_get (m : TypeMap) (t : TypeId) :
    (m.get_mut t).2 = m.get t := rfl

/-- `get_mut` leaves the map, and in particular its allocation state,
untouched. -/
theorem get_mut_fst (m : TypeMap) (t : TypeId) : (m.get_mut t).1 = m := rfl

/-- After `clear`, every lookup fails. -/
theorem get_clear (m : TypeMap) (t : TypeId) : m.clear.get t = none := by
  obtain ⟨mo⟩ := m
  cases mo <;> simp [TypeMap.clear, TypeMap.get, mapClear, mapGet]

/-- The empty store satisfies the store invariant. -/
theorem storeInv_nil : StoreInv [] := by
  constructor
  · simp [keys]
  · simp

/-- A fresh map satisfies the invariant (vacuously: no store). -/
theorem inv_new : TypeMap.new.Inv := by
  intro mp h
  simp [TypeMap.new] at h

/-- `insert` preserves the invariant: the new entry is stored under its own
type identifier, and key distinctness is kept. -/
theorem inv_insert (m : TypeMap) (t : TypeId) (v : Nat) (hI : m.Inv) :
    ((m.insert t v).1).Inv := by
  have hbase : StoreInv (m.map.getD []) := by
    cases hm : m.map with
    | none => exact storeInv_nil
    | some mp => simpa using hI mp hm
  intro mp h
  simp only [TypeMap.insert, Option.some.injEq] at h
  subst h
  refine ⟨nodup_keys_mapInsert _ _ _ hbase.1, ?_⟩
  intro e he
  rcases mem_mapInsert _ _ _ e he with h2 | h2
  · subst h2; rfl
  · exact hbase.2 e h2

/-- `remove` preserves the invariant: the store shrinks to a sublist. -/
theorem inv_remove (m : TypeMap) (t : TypeId) (hI : m.Inv) :
    ((m.remove t).1).Inv := by
  obtain ⟨mo⟩ := m
  cases mo with
  | none => exact hI
  | some base =>
    intro mp h
    simp only [TypeMap.remove, Option.some.injEq] at h
    subst h
    have hS := hI base rfl
    refine ⟨nodup_keys_mapRemove _ _ hS.1, ?_⟩
    intro e he
    exact hS.2 e ((mapRemove_sublist base t).subset he)

/-- `clear` preserves the invariant: the store becomes empty. -/
theorem inv_clear (m : TypeMap) (hI : m.Inv) : m.clear.Inv := by
  obtain ⟨mo⟩ := m
  cases mo with
  | none => exact hI
  | some base =>
    intro mp h
    simp only [TypeMap.clear, mapClear, Option.some.injEq] at h
    subst h
    exact storeInv_nil

/-- `get_mut` preserves the invariant: the map is unchanged. -/
theorem inv_get_mut (m : TypeMap) (t : TypeId) (hI : m.Inv) :
    ((m.get_mut t).1).Inv := hI

/-- Every state constructible through the public interface satisfies the
invariant. -/
theorem reachable_inv {m : TypeMap} (h : Reachable m) : m.Inv := by
  induction h with
  | new => exact inv_new
  | ins t v _ ih => exact inv_insert _ t v ih
  | rem t _ ih => exact inv_remove _ t ih
  | clr _ ih => exact inv_clear _ ih
  | gmut t _ ih => exact inv_get_mut _ t ih

/-- Under the invariant, the box found under `t` carries type identifier
`t`, so any downcast to `t` succeeds on it. -/
theorem findBox_tid (m : TypeMap) (t : TypeId) (b : AnyBox) (hI : m.Inv)
    (h : findBox m t = some b) : b.tid = t := by
  cases hm : m.map with
  | none => simp [findBox, hm] at h
  | some mp =>
    rw [findBox, hm] at h
    simp at h
    exact (hI mp hm).2 (t, b) (mapGet_mem mp t b h)

/-- Under the invariant, a present raw entry makes `get` succeed with its
payload: the downcast-failure branch is not taken. -/
theorem get_of_findBox (m : TypeMap) (t : TypeId) (b : AnyBox) (hI : m.Inv)
    (h : findBox m t = some b) : m.get t = some b.val := by
  rw [get_eq_findBox_bind, h]
  simp [downcast_ref, findBox_tid m t b hI h]

example : (TypeMap.new.insert 1 5).1.get 1 = some 5 := by decide
example : (TypeMap.new.insert 1 5).2 = none := by decide
example : ((TypeMap.new.insert 1 5).1.insert 1 7).2 = some 5 := by decide
example : ((TypeMap.new.insert 1 5).1.insert 1 7).1.get 1 = some 7 := by decide
example : ((TypeMap.new.insert 1 5).1.remove 1).2 = some 5 := by decide
example : ((TypeMap.new.insert 1 5).1.remove 1).1.get 1 = none := by decide
example : ((TypeMap.new.insert 1 5).1.insert 2 5).1.get 2 = some 5 := by decide
example : (TypeMap.new.insert 1 5).1.clear.get 1 = none := by decide
example : (TypeMap.new.insert 1 5).1.clear.map = some [] := by decide
example : TypeMap.new.clear = TypeMap.new := by decide
example : (TypeMap.new.get_mut 3).2 = none := by decide
example : hashTypeId 77 = some 77 := by decide
example : TypeMap.fmtDebug (TypeMap.new.insert 1 5).1 = "TypeMap" := by rfl

/-- Lemma: under the invariant, after a remove the removed identifier no
longer resolves through `get`. -/
theorem get_remove_self (m : TypeMap) (t : TypeId) (hI : m.Inv) :
    ((m.remove t).1).get t = none := by
  obtain ⟨mo⟩ := m
  cases mo with
  | none => rfl
  | some base =>
    have h := (hI base rfl).1
    simp [TypeMap.remove, TypeMap.get, mapGet_mapRemove_self base t h]

/-- C1: in every state constructible through the public interface, whenever
the raw `HashMap` lookup finds an entry under `T`'s type identifier, the
subsequent downcast to `T` succeeds for `get`, `get_mut`, `remove` and the
replacement value of `insert`: the downcast-failure branch (which would
yield `none` despite a present entry) is never taken, because every value is
stored under the type identifier of its own concrete type. -/
theorem claim_c1_downcast_total (m : TypeMap) (t : TypeId) (v : Nat)
    (b : AnyBox) (hR : Reachable m) (hb : findBox m t = some b) :
    m.get t = some b.val ∧ (m.get_mut t).2 = some b.val ∧
    (m.remove t).2 = some b.val ∧ (m.insert t v).2 = some b.val := by
  have hI := reachable_inv hR
  have hg := get_of_findBox m t b hI hb
  exact ⟨hg, by rw [get_mut_snd_eq_get]; exact hg,
    by rw [remove_snd_eq_get]; exact hg,
    by rw [insert_snd_eq_get]; exact hg⟩

/-- Witness for C1 at a concrete reachable state with a present entry. -/
theorem claim_c1_witness :
    findBox (TypeMap.new.insert 1 5).1 1 = some (AnyBox.mk 1 5) ∧
    (TypeMap.new.insert 1 5).1.get 1 = some 5 :=
  ⟨rfl, (claim_c1_downcast_total (TypeMap.new.insert 1 5).1 1 7
    (AnyBox.mk 1 5) (Reachable.ins 1 5 Reachable.new) rfl).1⟩

/-- C2: for every type `T`, payload `v` and map state `m`, inserting `v`
under `T`'s identifier and then immediately calling `get::<T>()` returns
`some v`. -/
theorem claim_c2_insert_get_roundtrip (m : TypeMap) (t : TypeId) (v : Nat) :
    ((m.insert t v).1).get t = some v :=
  get_insert_self m t v

/-- C3: on a state where `T` resolves to nothing, `insert(v1)` returns
`none`; a second `insert(v2)` returns `some v1`; a following `get::<T>()`
returns `some v2`; and in general `insert` returns `none` exactly when no
value of type `T` was stored, and `some` of the previous value otherwise. -/
theorem claim_c3_insert_replace (m : TypeMap) (t : TypeId) (v1 v2 : Nat) :
    (m.get t = none → (m.insert t v1).2 = none) ∧
    ((m.insert t v1).1.insert t v2).2 = some v1 ∧
    (((m.insert t v1).1.insert t v2).1).get t = some v2 ∧
    ((m.insert t v1).2 = none ↔ m.get t = none) ∧
    (∀ w, m.get t = some w → (m.insert t v1).2 = some w) := by
  have h1 := insert_snd_eq_get m t v1
  refine ⟨fun h => by rw [h1, h], ?_, get_insert_self _ t v2, by rw [h1],
    fun w h => by rw [h1, h]⟩
  rw [insert_snd_eq_get, get_insert_self]

/-- Witness for C3 at a concrete fresh state. -/
theorem claim_c3_witness :
    (TypeMap.new.insert 1 5).2 = none ∧
    ((TypeMap.new.insert 1 5).1.insert 1 7).2 = some 5 ∧
    (((TypeMap.new.insert 1 5).1.insert 1 7).1).get 1 = some 7 := by
  have h := claim_c3_insert_replace TypeMap.new 1 5 7
  exact ⟨h.1 rfl, h.2.1, h.2.2.1⟩

/-- C4: in every state constructible through the public interface, after
`remove::<T>()` the identifier of `T` no longer resolves through `get`, a
second `remove::<T>()` returns `none`, and `remove` returns exactly what
`get` returned just before (the stored value when present, `none` when
absent). -/
theorem claim_c4_remove_law (m : TypeMap) (t : TypeId) (hR : Reachable m) :
    ((m.remove t).1).get t = none ∧
    ((m.remove t).1.remove t).2 = none ∧
    (m.remove t).2 = m.get t := by
  have hI := reachable_inv hR
  refine ⟨get_remove_self m t hI, ?_, remove_snd_eq_get m t⟩
  rw [remove_snd_eq_get]
  exact get_remove_self m t hI

/-- Witness for C4 at a concrete reachable state where remove succeeds. -/
theorem claim_c4_witness :
    (((TypeMap.new.insert 1 5).1.remove 1).1).get 1 = none ∧
    ((TypeMap.new.insert 1 5).1.remove 1).2 = some 5 := by
  have h := claim_c4_remove_law (TypeMap.new.insert 1 5).1 1
    (Reachable.ins 1 5 Reachable.new)
  refine ⟨h.1, ?_⟩
  rw [h.2.2]
  rfl

/-- C5: after `clear()`, `get` fails for every type identifier and a
subsequent insert behaves as on an empty map; if the backing store was
allocated it stays allocated (present but emptied), and if it was never
allocated, `clear()` is a no-op. -/
theorem claim_c5_clear_law (m : TypeMap) (t : TypeId) (v : Nat) :
    m.clear.get t = none ∧
    (m.clear.insert t v).2 = none ∧
    ((m.clear.insert t v).1).get t = some v ∧
    (m.map.isSome → m.clear.map = some []) ∧
    (m.map = none → m.clear = m) := by
  refine ⟨get_clear m t, ?_, get_insert_self _ t v, ?_, ?_⟩
  · rw [insert_snd_eq_get, get_clear]
  · obtain ⟨mo⟩ := m
    cases mo <;> simp [TypeMap.clear, mapClear]
  · obtain ⟨mo⟩ := m
    cases mo <;> simp [TypeMap.clear]

/-- Witness for C5 at concrete allocated and unallocated states. -/
theorem claim_c5_witness :
    (TypeMap.new.insert 1 5).1.clear.get 1 = none ∧
    (((TypeMap.new.insert 1 5).1.clear.insert 2 9).1).get 2 = some 9 ∧
    (TypeMap.new.insert 1 5).1.clear.map = some [] ∧
    TypeMap.new.clear = TypeMap.new := by
  have h1 := claim_c5_clear_law (TypeMap.new.insert 1 5).1 1 9
  have h2 := claim_c5_clear_law (TypeMap.new.insert 1 5).1 2 9
  have h3 := claim_c5_clear_law TypeMap.new 1 9
  exact ⟨h1.1, h2.2.2.1, h1.2.2.2.1 rfl, h3.2.2.2.2 rfl⟩

/-- C6: for distinct type identifiers `t ≠ u`, inserting under `t` changes
neither the result of `get` at `u` nor the raw entry stored under `u`, even
when the payloads are bitwise identical. -/
theorem claim_c6_insert_frame (m : TypeMap) (t u : TypeId) (v : Nat)
    (h : t ≠ u) :
    ((m.insert t v).1).get u = m.get u ∧
    findBox ((m.insert t v).1) u = findBox m u :=
  ⟨get_insert_ne m t u v h, findBox_insert_ne m t u v h⟩

/-- Witness for C6: two distinct identifiers holding identical payloads. -/
theorem claim_c6_witness :
    (((TypeMap.new.insert 2 10).1.insert 1 10).1).get 2 =
      (TypeMap.new.insert 2 10).1.get 2 ∧
    (TypeMap.new.insert 2 10).1.get 2 = some 10 :=
  ⟨(claim_c6_insert_frame (TypeMap.new.insert 2 10).1 1 2 10 (by decide)).1,
    rfl⟩

/-- C7: `new()` has an unallocated backing store and resolves nothing; on
any map whose store was never allocated, `get` returns `none`, `remove`
returns `none` and leaves the store unallocated, `clear` is a no-op, and
only `insert` allocates the store. -/
theorem claim_c7_new_no_alloc (m : TypeMap) (t : TypeId) (v : Nat)
    (h : m.map = none) :
    TypeMap.new.map = none ∧ m.get t = none ∧ m.remove t = (m, none) ∧
    m.clear = m ∧ (((m.insert t v).1).map).isSome := by
  obtain ⟨mo⟩ := m
  simp only at h
  subst h
  exact ⟨rfl, rfl, rfl, rfl, rfl⟩

/-- Witness for C7 at the fresh map. -/
theorem claim_c7_witness :
    TypeMap.new.map = none ∧ TypeMap.new.get 3 = none ∧
    TypeMap.new.remove 3 = (TypeMap.new, none) ∧
    TypeMap.new.clear = TypeMap.new ∧
    (((TypeMap.new.insert 3 4).1).map).isSome :=
  claim_c7_new_no_alloc TypeMap.new 3 4 rfl

/-- C8: the hasher is a pass-through identity: hashing a 64-bit type
identifier (which invokes only `write_u64` on a fresh default `TypeIdHash`,
then `finish`) yields exactly the identifier, and never reaches the defect
branch in the byte-slice `write` method. -/
theorem claim_c8_hash_identity (id : Nat) (h : id < 2 ^ 64) :
    hashTypeId id = some id := by
  have h2 : id % 2 ^ 64 = id := Nat.mod_eq_of_lt h
  simp [hashTypeId, typeIdHashSteps, TypeIdHash.run, TypeIdHash.write_u64,
    TypeIdHash.finish, TypeIdHash.dflt, h2]
  omega

/-- Witness for C8 at a concrete identifier. -/
theorem claim_c8_witness : (42 : Nat) < 2 ^ 64 ∧ hashTypeId 42 = some 42 :=
  ⟨by norm_num, claim_c8_hash_identity 42 (by norm_num)⟩

/-- C9: `get_mut` on a map whose backing store was never allocated returns
`none` and leaves the store unallocated, the same no-allocation guarantee
as `get`, `remove` and `clear`. -/
theorem claim_c9_get_mut_no_alloc (m : TypeMap) (t : TypeId)
    (h : m.map = none) :
    (m.get_mut t).2 = none ∧ (m.get_mut t).1.map = none := by
  constructor
  · rw [get_mut_snd_eq_get]
    simp [TypeMap.get, h]
  · rw [get_mut_fst]
    exact h

/-- Witness for C9 at the fresh map. -/
theorem claim_c9_witness :
    (TypeMap.new.get_mut 5).2 = none ∧ (TypeMap.new.get_mut 5).1.map = none :=
  claim_c9_get_mut_no_alloc TypeMap.new 5 rfl

/-- C10: the `Debug` rendering of a `TypeMap` is the constant string
"TypeMap", identical for any two map states whatever they store: stored
values never leak through `Debug`. -/
theorem claim_c10_debug_constant (m1 m2 : TypeMap) :
    TypeMap.fmtDebug m1 = TypeMap.fmtDebug m2 ∧
    TypeMap.fmtDebug m1 = "TypeMap" :=
  ⟨rfl, rfl⟩
